import Mathlib

/-!
Verification development for the NextBeat note post-processing and MIDI
serialization core (`src/api/post_processing.py`,
`src/api/magenta_continuator.py`, `src/api/primer_generator.py`,
`src/api/config.py`, `src/api/main.py`).

Modelling conventions:
* Python floats (beat times, durations, grid sizes) are modelled as exact
  rationals; decimal literals in the code become the corresponding rational
  literals.
* Python `int()` is truncation toward zero; Python `round()` is
  round-half-to-even; Python `x % m` for floats is `x - m*floor(x/m)`.
* The process-wide `random` module generator is modelled as an explicit
  state: a stream of integer draws plus a position counter.  Functions
  that consume randomness take the state and return the advanced state,
  mirroring the fact that the Python code mutates the shared module-level
  generator.
* Configuration (`config.py` `Settings`) is embedded at its default values.
-/

namespace NextBeat

/-- Kernel-friendly floor of a rational: `q.num / q.den` with Euclidean
integer division (the denominator is positive, so this is the floor). -/
def ratFloor (q : ℚ) : ℤ := q.num / (q.den : ℤ)

theorem ratFloor_eq (q : ℚ) : ratFloor q = ⌊q⌋ := by
  rw [ratFloor, Rat.floor_def]

def ratCeil (q : ℚ) : ℤ := -(ratFloor (-q))

theorem ratCeil_eq (q : ℚ) : ratCeil q = ⌈q⌉ := by
  rw [ratCeil, ratFloor_eq, Int.floor_neg, neg_neg]

/-- Python `int()` applied to a float: truncation toward zero. -/
def pyInt (q : ℚ) : ℤ := if q < 0 then ratCeil q else ratFloor q

theorem pyInt_eq_floor {q : ℚ} (h : 0 ≤ q) : pyInt q = ⌊q⌋ := by
  rw [pyInt, if_neg (not_lt.mpr h), ratFloor_eq]

/-- Python `round()` applied to a float: round half to even. -/
def pyRound (q : ℚ) : ℤ :=
  if q - (ratFloor q : ℚ) < 1/2 then ratFloor q
  else if (1/2 : ℚ) < q - (ratFloor q : ℚ) then ratFloor q + 1
  else if ratFloor q % 2 = 0 then ratFloor q else ratFloor q + 1

theorem pyRound_intCast (m : ℤ) : pyRound (m : ℚ) = m := by
  have hf : ratFloor (m : ℚ) = m := by rw [ratFloor_eq, Int.floor_intCast]
  rw [pyRound, hf]
  norm_num

/-- Python float modulo `x % m` (for positive modulus `m`). -/
def pyMod (x m : ℚ) : ℚ := x - m * (ratFloor (x / m) : ℚ)

/-! ## Configuration defaults (`src/api/config.py`, class `Settings`) -/

namespace settings

def quantize_grid : ℚ := 1/4

/-- Default swing amount, `Settings.swing_ratio = 0.66` in `config.py`. -/
def swing_default : ℚ := 33/50

def humanize_timing : ℚ := 3/200

def humanize_velocity : ℤ := 8

def velocity_min : ℤ := 40

def velocity_max : ℤ := 120

end settings

/-! ## Note model

The pipeline works on Python dicts.  Drum notes carry `drum`, `midi_note`,
`time`, `velocity`; piano notes carry `pitch`, `time`, `duration`,
`velocity`.  A single record type with optional fields models the dicts;
a Percussive note is one whose `duration` field is absent. -/

structure Note where
  time : ℚ
  velocity : ℤ
  duration : Option ℚ
  drum : Option String
  midi_note : Option ℤ
  pitch : Option ℤ
deriving DecidableEq, Repr

/-! ## Shared random generator state

Models the module-level `random` generator that the Python code mutates:
an infinite stream of integer draws and the current position.  Each
primitive (`random.random`, `random.randint`, `random.gauss`) consumes one
draw and advances the position. -/

structure RandState where
  seq : ℕ → ℤ
  pos : ℕ

/-- `random.random()`: a value in `[0,1)` (drawn here on a 1/10 grid) and
the advanced state. -/
def random01 (st : RandState) : ℚ × RandState :=
  (((st.seq st.pos % 10 : ℤ) : ℚ) / 10, ⟨st.seq, st.pos + 1⟩)

/-- `random.randint(a, b)`: an integer in `[a, b]` and the advanced state. -/
def randint (a b : ℤ) (st : RandState) : ℤ × RandState :=
  (a + st.seq st.pos % (b - a + 1), ⟨st.seq, st.pos + 1⟩)

/-- `random.gauss(mu, sigma)`: an unbounded draw (here `mu + sigma·z` for
the next integer `z` of the stream) and the advanced state. -/
def gauss (mu sigma : ℚ) (st : RandState) : ℚ × RandState :=
  (mu + sigma * (st.seq st.pos : ℚ), ⟨st.seq, st.pos + 1⟩)

/-! ## Quantizer (`post_processing.quantize_notes`) -/

def quantizeNote (grid : ℚ) (n : Note) : Note :=
  { n with
    time := (pyRound (n.time / grid) : ℚ) * grid,
    duration := n.duration.map (fun d => max grid ((pyRound (d / grid) : ℚ) * grid)) }

def quantize_notes (notes : List Note) (grid : ℚ) : List Note :=
  notes.map (quantizeNote grid)

/-! ## Style transforms (`post_processing.py`) -/

def swingNote (r : ℚ) (n : Note) : Note :=
  if |pyMod n.time 1 - 1/2| < 1/100 then
    { n with time := (n.time - pyMod n.time 1) + r }
  else if |pyMod n.time 1 - 3/4| < 1/100 then
    { n with time := (n.time - pyMod n.time 1) + 1/2 + r / 2 }
  else n

def apply_swing (notes : List Note) (r : ℚ) : List Note :=
  if |r - 1/2| < 1/100 then notes else notes.map (swingNote r)

def rockNote (n : Note) : Note :=
  if |pyMod n.time 4| < 1/100 ∨ |pyMod n.time 4 - 2| < 1/100 then
    { n with velocity := min settings.velocity_max (pyInt ((n.velocity : ℚ) * (115/100))) }
  else if |pyMod n.time 4 - 1| < 1/100 ∨ |pyMod n.time 4 - 3| < 1/100 then
    { n with velocity := max settings.velocity_min (pyInt ((n.velocity : ℚ) * (95/100))) }
  else n

def apply_rock_emphasis (notes : List Note) : List Note :=
  notes.map rockNote

def reggaeNote (n : Note) : Note :=
  if |pyMod n.time 1 - 1/2| < 1/10 then
    { n with velocity := min settings.velocity_max (pyInt ((n.velocity : ℚ) * (120/100))) }
  else if |pyMod n.time 1| < 1/10 then
    { n with velocity := max settings.velocity_min (pyInt ((n.velocity : ℚ) * (85/100))) }
  else n

def apply_reggae_offbeat (notes : List Note) : List Note :=
  notes.map reggaeNote

/-! ## Funk ghost notes (`post_processing.add_funk_ghost_notes`) -/

/-- The ghost-note dict built at `post_processing.py:145`. -/
def ghostNote (t : ℚ) (v : ℤ) : Note :=
  { time := t, velocity := v, duration := none, drum := some ("snare"),
    midi_note := some 38, pitch := none }

/-- `max((n["time"] for n in result), default=0)`. -/
def maxTimeOf (notes : List Note) : ℚ :=
  match notes with
  | [] => 0
  | n :: ns => (ns.map (fun m => m.time)).foldl max n.time

def nearSnare (snare_times : List ℚ) (t : ℚ) : Bool :=
  snare_times.any (fun s => decide (|t - s| < 1/100))

/-- The sixteenth-note slots visited by the two nested loops, as global
slot indices `bar*16 + sixteenth`; the `break` on `time > max_time` cuts
each bar's inner loop short. -/
def slotList (max_time : ℚ) : List ℕ :=
  (List.range (pyInt (max_time / 4) + 1).toNat).flatMap (fun bar =>
    ((List.range 16).takeWhile
        (fun (s : ℕ) => decide ((bar : ℚ) * 4 + ((s : ℚ)) * (1/4) ≤ max_time))).map
      (fun s => bar * 16 + s))

/-- The slot loop body: skip slots near an existing snare hit, then on
offbeat sixteenths draw `random.random()` and with outcome `< 0.4` draw a
ghost velocity `randint(35, 55)`. -/
def genGhosts (snare_times : List ℚ) : List ℕ → RandState → List Note × RandState
  | [], st => ([], st)
  | s :: rest, st =>
    let t : ℚ := (s : ℚ) * (1/4)
    if nearSnare snare_times t then genGhosts snare_times rest st
    else if s % 4 = 1 ∨ s % 4 = 3 then
      if (random01 st).1 < 2/5 then
        let v := (randint 35 55 (random01 st).2).1
        let g2 := genGhosts snare_times rest (randint 35 55 (random01 st).2).2
        (ghostNote t v :: g2.1, g2.2)
      else genGhosts snare_times rest (random01 st).2
    else genGhosts snare_times rest st

def add_funk_ghost_notes (notes : List Note) (st : RandState) : List Note × RandState :=
  let snare_times := (notes.filter (fun n => n.drum == some ("snare"))).map (fun n => n.time)
  let g := genGhosts snare_times (slotList (maxTimeOf notes)) st
  (notes ++ g.1, g.2)

/-! ## Humanizer (`post_processing.humanize`) -/

def humanizeNote (t_amt : ℚ) (v_amt : ℤ) (n : Note) (st : RandState) : Note × RandState :=
  let g := gauss 0 (t_amt / 2) st
  let off := max (-t_amt) (min t_amt g.1)
  let r := randint (-v_amt) v_amt g.2
  ({ n with
      time := max 0 (n.time + off),
      velocity := max settings.velocity_min (min settings.velocity_max (n.velocity + r.1)) },
   r.2)

def humanize (notes : List Note) (t_amt : ℚ) (v_amt : ℤ) (st : RandState) :
    List Note × RandState :=
  match notes with
  | [] => ([], st)
  | n :: rest =>
    let h := humanizeNote t_amt v_amt n st
    let hs := humanize rest t_amt v_amt h.2
    (h.1 :: hs.1, hs.2)

/-! ## Style classifier (`post_processing._detect_style_category`) -/

def lowerChars (s : String) : List Char := s.toList.map Char.toLower

def leadsWith : List Char → List Char → Bool
  | [], _ => true
  | _ :: _, [] => false
  | a :: as, b :: bs => a == b && leadsWith as bs

/-- Python substring containment `needle in hay`. -/
def occursIn (needle : List Char) : List Char → Bool
  | [] => leadsWith needle []
  | c :: rest => leadsWith needle (c :: rest) || occursIn needle rest

def SWING_STYLES : List String :=
  ["jazz", "swing", "blues", "shuffle", "bebop", "dixieland", "ragtime", "big band"]

def ROCK_STYLES : List String :=
  ["rock", "metal", "punk", "grunge", "hard rock", "classic rock", "alternative"]

def FUNK_STYLES : List String :=
  ["funk", "soul", "motown", "r&b", "neo-soul", "disco"]

def REGGAE_STYLES : List String :=
  ["reggae", "ska", "dub", "dancehall"]

def kwHit (kws : List String) (pl : List Char) : Bool :=
  kws.any (fun k => occursIn k.toList pl)

def detect_style_category (style_prompt : String) : String :=
  let pl := lowerChars style_prompt
  if kwHit SWING_STYLES pl then "swing"
  else if kwHit FUNK_STYLES pl then "funk"
  else if kwHit ROCK_STYLES pl then "rock"
  else if kwHit REGGAE_STYLES pl then "reggae"
  else "neutral"

/-! ## Sequence assembly (`magenta_continuator.py`, fallback path)

`_drum_notes_to_sequence` / `_piano_notes_to_sequence` build a
`FallbackSequence` when `note_seq` is unavailable; that class and the mido
writer are the serialization code that lives in this repository. -/

structure SeqNote where
  pitch : ℤ
  start_time : ℚ
  end_time : ℚ
  velocity : ℤ
  is_drum : Bool
  instrument : ℤ
deriving DecidableEq, Repr

structure FallbackSequence where
  notes : List SeqNote
  tempo : ℤ
  ticks_per_quarter : ℤ
  total_time : ℚ
deriving DecidableEq, Repr

def beats_to_seconds (beats : ℚ) (tempo : ℤ) : ℚ := beats * 60 / (tempo : ℚ)

def FallbackSequence.init (tempo : ℤ) : FallbackSequence := ⟨[], tempo, 480, 0⟩

def FallbackSequence.add_note (s : FallbackSequence) (pitch : ℤ)
    (start_time end_time : ℚ) (velocity : ℤ) (is_drum : Bool) (instrument : ℤ) :
    FallbackSequence :=
  { s with
    notes := s.notes ++ [⟨pitch, start_time, end_time, velocity, is_drum, instrument⟩],
    total_time := max s.total_time end_time }

/-- Drum-note conversion; drum hits get a fixed `0.05`-second duration.
`note["midi_note"]` is accessed with a default because the dict lookup is
only reached on notes that carry the key. -/
def drum_notes_to_sequence (notes : List Note) (tempo : ℤ) : FallbackSequence :=
  notes.foldl
    (fun s n =>
      s.add_note (n.midi_note.getD 0) (beats_to_seconds n.time tempo)
        (beats_to_seconds n.time tempo + 1/20) n.velocity true 9)
    (FallbackSequence.init tempo)

def piano_notes_to_sequence (notes : List Note) (tempo : ℤ) : FallbackSequence :=
  notes.foldl
    (fun s n =>
      s.add_note (n.pitch.getD 0) (beats_to_seconds n.time tempo)
        (beats_to_seconds n.time tempo + beats_to_seconds (n.duration.getD 0) tempo)
        n.velocity false 0)
    (FallbackSequence.init tempo)

def primer_only_to_sequence (notes : List Note) (instrument : String) (tempo : ℤ) :
    FallbackSequence :=
  if instrument = "drums" then drum_notes_to_sequence notes tempo
  else piano_notes_to_sequence notes tempo

/-- The error conditions the assembly path can signal: the spec's
`InvalidTempo` plus Python's `ZeroDivisionError`. -/
inductive AssembleError
  | invalidTempo
  | zeroDivision
deriving DecidableEq, Repr

/-- Assembly with Python exceptions made statable as `Except`.  The code
performs no tempo validation of any kind; the only exception it can raise
is the `ZeroDivisionError` from `_beats_to_seconds` (`beats * 60.0 /
tempo`), which is reached exactly when `tempo = 0` and at least one note
is converted. -/
def primer_only_to_sequenceE (notes : List Note) (instrument : String) (tempo : ℤ) :
    Except AssembleError FallbackSequence :=
  if tempo = 0 ∧ notes ≠ [] then Except.error AssembleError.zeroDivision
  else Except.ok (primer_only_to_sequence notes instrument tempo)

/-- Upstream request validation of `tempo` (`main.py`,
`GenerateRequest.tempo: Field(ge=40, le=300)`). -/
def generate_request_tempo_ok (tempo : ℤ) : Bool :=
  decide (40 ≤ tempo) && decide (tempo ≤ 300)

/-! ## MIDI writer (`magenta_continuator._write_midi_with_mido`) -/

structure MidiEvent where
  tick : ℤ
  isOn : Bool
  note : ℤ
  velocity : ℤ
  channel : ℤ
deriving DecidableEq, Repr

structure TrackMsg where
  delta : ℤ
  isOn : Bool
  note : ℤ
  velocity : ℤ
  channel : ℤ
deriving DecidableEq, Repr

/-- The flat event list built at `magenta_continuator.py:444-451`:
per note a Note-On at `int(start_time/60*tempo*480)` and a Note-Off at
`int(end_time/60*tempo*480)` with velocity 0. -/
def noteEvents (s : FallbackSequence) : List MidiEvent :=
  s.notes.flatMap (fun n =>
    [⟨pyInt (n.start_time / 60 * (s.tempo : ℚ) * 480), true, n.pitch, n.velocity,
       if n.is_drum then 9 else 0⟩,
     ⟨pyInt (n.end_time / 60 * (s.tempo : ℚ) * 480), false, n.pitch, 0,
       if n.is_drum then 9 else 0⟩])

/-- `events.sort(key=lambda e: e[0])` — Python's stable sort by absolute
tick, modelled by stable insertion sort. -/
def sortedEvents (s : FallbackSequence) : List MidiEvent :=
  List.insertionSort (fun a b => a.tick ≤ b.tick) (noteEvents s)

/-- Delta-time conversion: `delta = max(0, tick - prev_tick); prev_tick = tick`. -/
def msgsFrom (prev : ℤ) : List MidiEvent → List TrackMsg
  | [] => []
  | e :: es => ⟨max 0 (e.tick - prev), e.isOn, e.note, e.velocity, e.channel⟩ :: msgsFrom e.tick es

/-- The track body written by `_write_midi_with_mido` (note messages after
the initial set-tempo meta message, which carries delta 0). -/
def write_midi_with_mido (s : FallbackSequence) : List TrackMsg :=
  msgsFrom 0 (sortedEvents s)

/-- Decoding: absolute tick of each emitted message, obtained by
accumulating the delta times from an initial tick. -/
def accumTicks (prev : ℤ) : List TrackMsg → List ℤ
  | [] => []
  | m :: ms => (prev + m.delta) :: accumTicks (prev + m.delta) ms

/-! ## Quantizer lemmas and claims C6, C8 -/

theorem pyRound_mul_div_cancel (m : ℤ) (g : ℚ) (hg : g ≠ 0) :
    pyRound ((m : ℚ) * g / g) = m := by
  rw [mul_div_cancel_right₀ _ hg, pyRound_intCast]

/-- C6: quantization maps each note to a copy whose `time` is
`round(time/g)*g`; a note carrying a `duration` (a Pitched note) gets
`max(g, round(duration/g)*g)`, a note without one (a Percussive note) is
untouched; all other fields are preserved, the length is preserved, there
are no error conditions, and empty input yields empty output. -/
theorem c6_quantize_contract (notes : List Note) (g : ℚ) :
    (quantize_notes notes g).length = notes.length ∧
    quantize_notes ([] : List Note) g = [] ∧
    ∀ i : ℕ,
      ((quantize_notes notes g)[i]?).map Note.time
          = (notes[i]?).map (fun n => (pyRound (n.time / g) : ℚ) * g) ∧
      ((quantize_notes notes g)[i]?).map Note.duration
          = (notes[i]?).map (fun n =>
              n.duration.map (fun d => max g ((pyRound (d / g) : ℚ) * g))) ∧
      ((quantize_notes notes g)[i]?).map Note.velocity = (notes[i]?).map Note.velocity ∧
      ((quantize_notes notes g)[i]?).map Note.drum = (notes[i]?).map Note.drum ∧
      ((quantize_notes notes g)[i]?).map Note.midi_note = (notes[i]?).map Note.midi_note ∧
      ((quantize_notes notes g)[i]?).map Note.pitch = (notes[i]?).map Note.pitch := by
  refine ⟨by simp [quantize_notes], by simp [quantize_notes], fun i => ?_⟩
  cases h : notes[i]? with
  | none => simp [quantize_notes, List.getElem?_map, h]
  | some n => simp [quantize_notes, List.getElem?_map, h, quantizeNote]

theorem quantizeNote_idem (g : ℚ) (hg : 0 < g) (n : Note) :
    quantizeNote g (quantizeNote g n) = quantizeNote g n := by
  have hg' : g ≠ 0 := ne_of_gt hg
  unfold quantizeNote
  simp only [Note.mk.injEq, Option.map_map]
  refine ⟨?_, trivial, ?_, trivial, trivial, trivial⟩
  · rw [pyRound_mul_div_cancel _ _ hg']
  · cases hd : n.duration with
    | none => rfl
    | some d =>
      simp only [Option.map_some', Function.comp_apply]
      congr 1
      rcases le_total ((pyRound (d / g) : ℚ) * g) g with h | h
      · rw [max_eq_left h, div_self hg']
        have h1 : pyRound ((1 : ℚ)) = 1 := by
          have := pyRound_intCast 1
          simpa using this
        rw [h1]
        norm_num
      · rw [max_eq_right h, pyRound_mul_div_cancel _ _ hg', max_eq_right h]

/-- C8: quantization is idempotent — re-quantizing an already-quantized
list with the same (positive) grid returns an identical list. -/
theorem c8_quantize_idempotent (notes : List Note) (g : ℚ) (hg : 0 < g) :
    quantize_notes (quantize_notes notes g) g = quantize_notes notes g := by
  unfold quantize_notes
  rw [List.map_map]
  exact List.map_congr_left (fun n _ => quantizeNote_idem g hg n)

/-! ## Style classifier claims C7, C9 -/

/-- Claim-side formulation: the prompt, lower-cased, contains some keyword
of the given set as a substring. -/
def styleMatches (kws : List String) (p : String) : Prop :=
  ∃ k ∈ kws, occursIn k.toList (lowerChars p) = true

theorem kwHit_iff (kws : List String) (p : String) :
    kwHit kws (lowerChars p) = true ↔ styleMatches kws p := by
  simp [kwHit, List.any_eq_true, styleMatches]

/-- C7: style classification lower-cases the prompt and tests it against
the four keyword sets; the first match in the priority order
Swing → Funk → Rock → Reggae wins, otherwise the result is Neutral, and
the function is total with exactly these five possible outputs. -/
theorem c7_style_priority_total (p : String) :
    (detect_style_category p = "swing" ↔ styleMatches SWING_STYLES p) ∧
    (detect_style_category p = "funk" ↔
      ¬styleMatches SWING_STYLES p ∧ styleMatches FUNK_STYLES p) ∧
    (detect_style_category p = "rock" ↔
      ¬styleMatches SWING_STYLES p ∧ ¬styleMatches FUNK_STYLES p ∧
        styleMatches ROCK_STYLES p) ∧
    (detect_style_category p = "reggae" ↔
      ¬styleMatches SWING_STYLES p ∧ ¬styleMatches FUNK_STYLES p ∧
        ¬styleMatches ROCK_STYLES p ∧ styleMatches REGGAE_STYLES p) ∧
    (detect_style_category p = "neutral" ↔
      ¬styleMatches SWING_STYLES p ∧ ¬styleMatches FUNK_STYLES p ∧
        ¬styleMatches ROCK_STYLES p ∧ ¬styleMatches REGGAE_STYLES p) ∧
    detect_style_category p ∈ (["swing", "funk", "rock", "reggae", "neutral"] : List String) := by
  unfold detect_style_category
  by_cases hs : styleMatches SWING_STYLES p <;>
    by_cases hf : styleMatches FUNK_STYLES p <;>
      by_cases hr : styleMatches ROCK_STYLES p <;>
        by_cases hg : styleMatches REGGAE_STYLES p <;>
          simp [(kwHit_iff _ p).symm, hs, hf, hr, hg] at * <;>
            simp_all [← kwHit_iff]

/-- C9 counterexample: the prompt `"jazz dub"` contains the Reggae keyword
`"dub"` as a substring, yet it is classified `"swing"`, not `"reggae"` —
so a prompt containing a keyword is not always assigned that keyword's
category. -/
theorem c9_substring_counterexample :
    ("dub" ∈ REGGAE_STYLES) ∧
    occursIn (String.toList ("dub")) (lowerChars ("jazz dub")) = true ∧
    detect_style_category ("jazz dub") = "swing" ∧
    ("swing" : String) ≠ "reggae" := by
  refine ⟨by decide, by decide, by decide, by decide⟩

/-- C9 amended: keyword matching is substring matching on the lower-cased
prompt (not whole-word matching): a prompt containing any keyword — even
embedded inside a longer word — is never Neutral, and it is assigned the
matched category when no keyword of a higher-priority category also
occurs. -/
theorem c9_substring_amended (p : String) :
    ((styleMatches SWING_STYLES p ∨ styleMatches FUNK_STYLES p ∨
        styleMatches ROCK_STYLES p ∨ styleMatches REGGAE_STYLES p) →
      detect_style_category p ≠ "neutral") ∧
    (styleMatches SWING_STYLES p → detect_style_category p = "swing") ∧
    (styleMatches FUNK_STYLES p → ¬styleMatches SWING_STYLES p →
      detect_style_category p = "funk") ∧
    (styleMatches ROCK_STYLES p → ¬styleMatches SWING_STYLES p →
      ¬styleMatches FUNK_STYLES p → detect_style_category p = "rock") ∧
    (styleMatches REGGAE_STYLES p → ¬styleMatches SWING_STYLES p →
      ¬styleMatches FUNK_STYLES p → ¬styleMatches ROCK_STYLES p →
      detect_style_category p = "reggae") := by
  refine ⟨?_, ?_, ?_, ?_, ?_⟩
  · intro h
    simp only [detect_style_category]
    split_ifs with h1 h2 h3 h4 <;> simp_all [← kwHit_iff]
  · intro h1
    rw [← kwHit_iff] at *
    simp only [detect_style_category]
    simp_all
  · intro h1 h2
    rw [← kwHit_iff] at *
    simp only [detect_style_category]
    simp_all
  · intro h1 h2 h3
    rw [← kwHit_iff] at *
    simp only [detect_style_category]
    simp_all
  · intro h1 h2 h3 h4
    rw [← kwHit_iff] at *
    simp only [detect_style_category]
    simp_all

/-- C9 witness: `"dubstep"` contains `"dub"` embedded in a longer word and
is classified Reggae, not Neutral. -/
theorem c9_substring_amended_witness :
    styleMatches REGGAE_STYLES ("dubstep") ∧
    detect_style_category ("dubstep") = "reggae" ∧
    detect_style_category ("dubstep") ≠ "neutral" ∧
    styleMatches FUNK_STYLES ("funky") ∧
    detect_style_category ("funky") = "funk" := by
  have h1 : styleMatches REGGAE_STYLES ("dubstep") := by
    rw [← kwHit_iff]
    decide
  have h2 : ¬styleMatches SWING_STYLES ("dubstep") := by
    rw [← kwHit_iff]
    decide
  have h3 : ¬styleMatches FUNK_STYLES ("dubstep") := by
    rw [← kwHit_iff]
    decide
  have h4 : ¬styleMatches ROCK_STYLES ("dubstep") := by
    rw [← kwHit_iff]
    decide
  have hf1 : styleMatches FUNK_STYLES ("funky") := by
    rw [← kwHit_iff]
    decide
  have hf2 : ¬styleMatches SWING_STYLES ("funky") := by
    rw [← kwHit_iff]
    decide
  exact ⟨h1, (c9_substring_amended ("dubstep")).2.2.2.2 h1 h2 h3 h4,
    (c9_substring_amended ("dubstep")).1 (Or.inr (Or.inr (Or.inr h1))),
    hf1, (c9_substring_amended ("funky")).2.2.1 hf1 hf2⟩

/-! ## Sequence assembly lemmas and claim C2 -/

/-- The `SeqNote` built by `_drum_notes_to_sequence`'s fallback loop. -/
def drumSeqNote (tempo : ℤ) (n : Note) : SeqNote :=
  ⟨n.midi_note.getD 0, beats_to_seconds n.time tempo,
   beats_to_seconds n.time tempo + 1/20, n.velocity, true, 9⟩

/-- The `SeqNote` built by `_piano_notes_to_sequence`'s fallback loop. -/
def pianoSeqNote (tempo : ℤ) (n : Note) : SeqNote :=
  ⟨n.pitch.getD 0, beats_to_seconds n.time tempo,
   beats_to_seconds n.time tempo + beats_to_seconds (n.duration.getD 0) tempo,
   n.velocity, false, 0⟩

theorem drum_fold_spec (tempo : ℤ) (notes : List Note) (s : FallbackSequence) :
    (notes.foldl
        (fun s n =>
          s.add_note (n.midi_note.getD 0) (beats_to_seconds n.time tempo)
            (beats_to_seconds n.time tempo + 1/20) n.velocity true 9) s).notes
        = s.notes ++ notes.map (drumSeqNote tempo) ∧
    (notes.foldl
        (fun s n =>
          s.add_note (n.midi_note.getD 0) (beats_to_seconds n.time tempo)
            (beats_to_seconds n.time tempo + 1/20) n.velocity true 9) s).tempo
        = s.tempo ∧
    (notes.foldl
        (fun s n =>
          s.add_note (n.midi_note.getD 0) (beats_to_seconds n.time tempo)
            (beats_to_seconds n.time tempo + 1/20) n.velocity true 9) s).ticks_per_quarter
        = s.ticks_per_quarter := by
  induction notes generalizing s with
  | nil => simp
  | cons n ns ih =>
    simp only [List.foldl_cons]
    rcases ih (s.add_note (n.midi_note.getD 0) (beats_to_seconds n.time tempo)
      (beats_to_seconds n.time tempo + 1/20) n.velocity true 9) with ⟨h1, h2, h3⟩
    refine ⟨?_, ?_, ?_⟩
    · rw [h1]
      simp [FallbackSequence.add_note, drumSeqNote]
    · rw [h2]
      simp [FallbackSequence.add_note]
    · rw [h3]
      simp [FallbackSequence.add_note]

theorem piano_fold_spec (tempo : ℤ) (notes : List Note) (s : FallbackSequence) :
    (notes.foldl
        (fun s n =>
          s.add_note (n.pitch.getD 0) (beats_to_seconds n.time tempo)
            (beats_to_seconds n.time tempo + beats_to_seconds (n.duration.getD 0) tempo)
            n.velocity false 0) s).notes
        = s.notes ++ notes.map (pianoSeqNote tempo) ∧
    (notes.foldl
        (fun s n =>
          s.add_note (n.pitch.getD 0) (beats_to_seconds n.time tempo)
            (beats_to_seconds n.time tempo + beats_to_seconds (n.duration.getD 0) tempo)
            n.velocity false 0) s).tempo
        = s.tempo ∧
    (notes.foldl
        (fun s n =>
          s.add_note (n.pitch.getD 0) (beats_to_seconds n.time tempo)
            (beats_to_seconds n.time tempo + beats_to_seconds (n.duration.getD 0) tempo)
            n.velocity false 0) s).ticks_per_quarter
        = s.ticks_per_quarter := by
  induction notes generalizing s with
  | nil => simp
  | cons n ns ih =>
    simp only [List.foldl_cons]
    rcases ih (s.add_note (n.pitch.getD 0) (beats_to_seconds n.time tempo)
      (beats_to_seconds n.time tempo + beats_to_seconds (n.duration.getD 0) tempo)
      n.velocity false 0) with ⟨h1, h2, h3⟩
    refine ⟨?_, ?_, ?_⟩
    · rw [h1]
      simp [FallbackSequence.add_note, pianoSeqNote]
    · rw [h2]
      simp [FallbackSequence.add_note]
    · rw [h3]
      simp [FallbackSequence.add_note]

theorem drum_notes_to_sequence_notes (notes : List Note) (tempo : ℤ) :
    (drum_notes_to_sequence notes tempo).notes = notes.map (drumSeqNote tempo) := by
  have h := drum_fold_spec tempo notes (FallbackSequence.init tempo)
  simpa [drum_notes_to_sequence, FallbackSequence.init] using h.1

theorem drum_notes_to_sequence_tempo (notes : List Note) (tempo : ℤ) :
    (drum_notes_to_sequence notes tempo).tempo = tempo := by
  have h := drum_fold_spec tempo notes (FallbackSequence.init tempo)
  simpa [drum_notes_to_sequence, FallbackSequence.init] using h.2.1

theorem piano_notes_to_sequence_notes (notes : List Note) (tempo : ℤ) :
    (piano_notes_to_sequence notes tempo).notes = notes.map (pianoSeqNote tempo) := by
  have h := piano_fold_spec tempo notes (FallbackSequence.init tempo)
  simpa [piano_notes_to_sequence, FallbackSequence.init] using h.1

theorem piano_notes_to_sequence_tempo (notes : List Note) (tempo : ℤ) :
    (piano_notes_to_sequence notes tempo).tempo = tempo := by
  have h := piano_fold_spec tempo notes (FallbackSequence.init tempo)
  simpa [piano_notes_to_sequence, FallbackSequence.init] using h.2.1

/-- C2 amended: the Sequence Assembler performs no tempo validation — it
never signals an `InvalidTempo` condition for any tempo.  The only
exception the assembly path can raise is the `ZeroDivisionError` from
`_beats_to_seconds`, reached exactly when `tempo = 0` and the note list is
non-empty; for every non-zero tempo (in particular every tempo outside
`[1, 1000]`) assembly succeeds, recording the given tempo,
`ticks_per_quarter = 480`, and one sequence note per input note.  The
tempo range is instead enforced upstream by request validation, which
accepts exactly `tempo ∈ [40, 300]`. -/
theorem c2_tempo_amended (notes : List Note) (instrument : String) (tempo : ℤ) :
    (primer_only_to_sequenceE notes instrument tempo
      ≠ Except.error AssembleError.invalidTempo) ∧
    (primer_only_to_sequenceE notes instrument tempo
        = Except.error AssembleError.zeroDivision ↔ tempo = 0 ∧ notes ≠ []) ∧
    (tempo ≠ 0 →
      primer_only_to_sequenceE notes instrument tempo
          = Except.ok (primer_only_to_sequence notes instrument tempo) ∧
      (primer_only_to_sequence notes instrument tempo).tempo = tempo ∧
      (primer_only_to_sequence notes instrument tempo).ticks_per_quarter = 480 ∧
      (primer_only_to_sequence notes instrument tempo).notes.length = notes.length) ∧
    (generate_request_tempo_ok tempo = true ↔ 40 ≤ tempo ∧ tempo ≤ 300) := by
  refine ⟨?_, ?_, fun h0 => ⟨?_, ?_, ?_, ?_⟩, ?_⟩
  · unfold primer_only_to_sequenceE
    split_ifs <;> simp
  · unfold primer_only_to_sequenceE
    split_ifs with h <;> simp [h]
  · unfold primer_only_to_sequenceE
    rw [if_neg (by simp [h0])]
  · unfold primer_only_to_sequence
    split_ifs <;> simp [drum_notes_to_sequence_tempo, piano_notes_to_sequence_tempo]
  · unfold primer_only_to_sequence
    split_ifs
    · have h := drum_fold_spec tempo notes (FallbackSequence.init tempo)
      simpa [drum_notes_to_sequence, FallbackSequence.init] using h.2.2
    · have h := piano_fold_spec tempo notes (FallbackSequence.init tempo)
      simpa [piano_notes_to_sequence, FallbackSequence.init] using h.2.2
  · unfold primer_only_to_sequence
    split_ifs <;>
      simp [drum_notes_to_sequence_notes, piano_notes_to_sequence_notes]
  · simp [generate_request_tempo_ok]

def kickNote : Note :=
  { time := 0, velocity := 100, duration := none, drum := some ("kick"),
    midi_note := some 36, pitch := none }

/-- C2 counterexample: `tempo = 2000` is outside `[1, 1000]`, yet assembly
succeeds — it does not fail with an `InvalidTempo` condition. -/
theorem c2_tempo_counterexample :
    ¬((1:ℤ) ≤ 2000 ∧ (2000:ℤ) ≤ 1000) ∧
    primer_only_to_sequenceE [kickNote] ("drums") 2000
      = Except.ok (primer_only_to_sequence [kickNote] ("drums") 2000) ∧
    primer_only_to_sequenceE [kickNote] ("drums") 2000
      ≠ Except.error AssembleError.invalidTempo := by
  refine ⟨by norm_num, ?_, ?_⟩
  · unfold primer_only_to_sequenceE
    rw [if_neg (by norm_num)]
  · unfold primer_only_to_sequenceE
    rw [if_neg (by norm_num)]
    simp

/-- C2 witness: the amended theorem's success clause instantiated at the
in-range tempo 120 on a concrete note. -/
theorem c2_tempo_amended_witness :
    (120 : ℤ) ≠ 0 ∧
    primer_only_to_sequenceE [kickNote] ("drums") 120
      = Except.ok (primer_only_to_sequence [kickNote] ("drums") 120) ∧
    (primer_only_to_sequence [kickNote] ("drums") 120).tempo = 120 ∧
    (primer_only_to_sequence [kickNote] ("drums") 120).ticks_per_quarter = 480 ∧
    (primer_only_to_sequence [kickNote] ("drums") 120).notes.length = 1 := by
  have h0 : (120 : ℤ) ≠ 0 := by norm_num
  have h := (c2_tempo_amended [kickNote] ("drums") 120).2.2.1 h0
  exact ⟨h0, h.1, h.2.1, h.2.2.1, by simpa using h.2.2.2⟩

/-! ## Randomness claims C5 -/

/-- C5 amended: the Funk ghost-note stage and the Humanizer take no seed
or generator parameter; both read the process-wide shared random state and
leave it advanced (the Humanizer by exactly two draws per note), so
reproducibility is only obtainable by controlling the shared generator
itself. -/
theorem c5_shared_random_amended (notes : List Note) (t : ℚ) (v : ℤ) (st : RandState) :
    (humanize notes t v st).2.seq = st.seq ∧
    (humanize notes t v st).2.pos = st.pos + 2 * notes.length ∧
    (add_funk_ghost_notes notes st).2.seq = st.seq ∧
    st.pos ≤ (add_funk_ghost_notes notes st).2.pos := by
  have hgen : ∀ (snares : List ℚ) (slots : List ℕ) (st0 : RandState),
      (genGhosts snares slots st0).2.seq = st0.seq ∧
      st0.pos ≤ (genGhosts snares slots st0).2.pos := by
    intro snares slots
    induction slots with
    | nil => intro st0; simp [genGhosts]
    | cons s rest ih =>
      intro st0
      simp only [genGhosts]
      split_ifs with h1 h2 h3
      · exact ih st0
      · have h := ih (randint 35 55 (random01 st0).2).2
        simp only [randint, random01] at h ⊢
        exact ⟨h.1, by omega⟩
      · have h := ih (random01 st0).2
        simp only [random01] at h ⊢
        exact ⟨h.1, by omega⟩
      · exact ih st0
  have hhum : ∀ (notes : List Note) (st0 : RandState),
      (humanize notes t v st0).2.seq = st0.seq ∧
      (humanize notes t v st0).2.pos = st0.pos + 2 * notes.length := by
    intro ns
    induction ns with
    | nil => intro st0; simp [humanize]
    | cons n rest ih =>
      intro st0
      simp only [humanize]
      have h := ih (humanizeNote t v n st0).2
      simp only [humanizeNote, gauss, randint] at h ⊢
      refine ⟨h.1, ?_⟩
      rw [h.2]
      simp [List.length_cons]
      ring
  refine ⟨(hhum notes st).1, (hhum notes st).2, ?_, ?_⟩
  · exact (hgen _ _ st).1
  · exact (hgen _ _ st).2

def idStream : RandState := ⟨fun i => (i : ℤ), 0⟩

def pianoNote60 : Note :=
  { time := 0, velocity := 100, duration := some 1, drum := none,
    midi_note := none, pitch := some 60 }

/-- C5 counterexample: with the shared generator state threaded as the
code leaves it, two invocations of the Humanizer on the same input produce
different outputs — there is no per-invocation seed that makes repeated
runs identical. -/
theorem c5_shared_random_counterexample :
    (humanize [pianoNote60] settings.humanize_timing settings.humanize_velocity
        idStream).1
      ≠ (humanize [pianoNote60] settings.humanize_timing settings.humanize_velocity
          ((humanize [pianoNote60] settings.humanize_timing settings.humanize_velocity
              idStream).2)).1 := by
  norm_num [humanize, humanizeNote, gauss, randint, idStream, pianoNote60,
    settings.humanize_timing, settings.humanize_velocity, settings.velocity_min,
    settings.velocity_max, Note.mk.injEq]


/-! ## Funk ghost-note frame lemmas and claims C10, C3 (and C8 witness) -/

theorem randint_bounds (a b : ℤ) (st : RandState) (h : a ≤ b) :
    a ≤ (randint a b st).1 ∧ (randint a b st).1 ≤ b := by
  have hpos : (0:ℤ) < b - a + 1 := by omega
  have h1 := Int.emod_nonneg (st.seq st.pos) (by omega : b - a + 1 ≠ 0)
  have h2 := Int.emod_lt_of_pos (st.seq st.pos) hpos
  constructor <;> simp only [randint] <;> omega

theorem genGhosts_mem (snares : List ℚ) (slots : List ℕ) (st : RandState) :
    ∀ g ∈ (genGhosts snares slots st).1,
      ∃ s ∈ slots, (s % 4 = 1 ∨ s % 4 = 3) ∧
        nearSnare snares ((s : ℚ) * (1/4)) = false ∧
        ∃ v : ℤ, 35 ≤ v ∧ v ≤ 55 ∧ g = ghostNote ((s : ℚ) * (1/4)) v := by
  induction slots generalizing st with
  | nil => intro g hg; simp [genGhosts] at hg
  | cons s rest ih =>
    intro g hg
    simp only [genGhosts] at hg
    split_ifs at hg with h1 h2 h3
    · obtain ⟨s', hs', rest'⟩ := ih st g hg
      exact ⟨s', List.mem_cons_of_mem _ hs', rest'⟩
    · rcases List.mem_cons.mp hg with rfl | hg'
      · refine ⟨s, List.mem_cons_self s rest, h2, Bool.eq_false_iff.mpr h1, ?_⟩
        exact ⟨_, (randint_bounds 35 55 (random01 st).2 (by norm_num)).1,
          (randint_bounds 35 55 (random01 st).2 (by norm_num)).2, rfl⟩
      · obtain ⟨s', hs', rest'⟩ := ih _ g hg'
        exact ⟨s', List.mem_cons_of_mem _ hs', rest'⟩
    · obtain ⟨s', hs', rest'⟩ := ih _ g hg
      exact ⟨s', List.mem_cons_of_mem _ hs', rest'⟩
    · obtain ⟨s', hs', rest'⟩ := ih st g hg
      exact ⟨s', List.mem_cons_of_mem _ hs', rest'⟩

theorem slotList_le (mt : ℚ) (s : ℕ) (hs : s ∈ slotList mt) :
    (s : ℚ) * (1/4) ≤ mt := by
  simp only [slotList, List.mem_flatMap, List.mem_map] at hs
  obtain ⟨bar, _, s16, hs16, rfl⟩ := hs
  have hp := List.mem_takeWhile_imp hs16
  rw [decide_eq_true_eq] at hp
  push_cast
  linarith

/-- C10: the Funk ghost-note stage returns the input list unchanged as a
prefix and appends only ghost snare notes: each appended note has
`drum = "snare"`, `midi_note = 38`, velocity in `[35, 55]`, a time on an
odd sixteenth slot (slot index mod 4 ∈ {1,3}), at least 0.01 beats away
from every existing snare hit, and not beyond the latest input note time. -/
theorem c10_funk_frame (notes : List Note) (st : RandState) :
    (add_funk_ghost_notes notes st).1.take notes.length = notes ∧
    ∀ g ∈ (add_funk_ghost_notes notes st).1.drop notes.length,
      g.drum = some ("snare") ∧ g.midi_note = some 38 ∧
      35 ≤ g.velocity ∧ g.velocity ≤ 55 ∧
      (∃ s : ℕ, (s % 4 = 1 ∨ s % 4 = 3) ∧ g.time = (s : ℚ) * (1/4)) ∧
      (∀ n ∈ notes, n.drum = some ("snare") → ¬(|g.time - n.time| < 1/100)) ∧
      g.time ≤ maxTimeOf notes := by
  have hout : (add_funk_ghost_notes notes st).1
      = notes ++ (genGhosts
          ((notes.filter (fun n => n.drum == some ("snare"))).map (fun n => n.time))
          (slotList (maxTimeOf notes)) st).1 := rfl
  rw [hout, List.take_left, List.drop_left]
  refine ⟨rfl, fun g hg => ?_⟩
  obtain ⟨s, hs_mem, hpar, hnear, v, hv1, hv2, rfl⟩ := genGhosts_mem _ _ _ g hg
  refine ⟨rfl, rfl, hv1, hv2, ⟨s, hpar, rfl⟩, ?_, slotList_le _ _ hs_mem⟩
  intro n hn hdrum habs
  have hmem : n.time ∈ (notes.filter (fun n => n.drum == some ("snare"))).map
      (fun n => n.time) := by
    exact List.mem_map.mpr ⟨n, List.mem_filter.mpr ⟨hn, by simp [hdrum]⟩, rfl⟩
  have : nearSnare ((notes.filter (fun n => n.drum == some ("snare"))).map
      (fun n => n.time)) ((s : ℚ) * (1/4)) = true := by
    simp only [nearSnare, List.any_eq_true]
    exact ⟨n.time, hmem, by simpa [ghostNote] using habs⟩
  rw [this] at hnear
  simp at hnear

-- concrete evaluation for witnesses / counterexample
def kick14 : Note :=
  { time := 1/4, velocity := 100, duration := none, drum := some ("kick"),
    midi_note := some 36, pitch := none }

def zeroStream : RandState := ⟨fun _ => 0, 0⟩

theorem slotList_quarter : slotList (1/4) = [0, 1] := by
  have h1 : pyInt ((1/4 : ℚ) / 4) = 0 := by
    rw [pyInt_eq_floor (by norm_num)]
    norm_num [Int.floor_eq_zero_iff, Set.mem_Ico]
  simp only [slotList, h1]
  rw [show ((0:ℤ) + 1).toNat = 1 from rfl]
  rw [show List.range 1 = [0] from rfl]
  simp only [List.flatMap_cons, List.flatMap_nil, List.append_nil]
  rw [show List.range 16
      = 0 :: 1 :: 2 :: [3, 4, 5, 6, 7, 8, 9, 10, 11, 12, 13, 14, 15] from rfl]
  rw [List.takeWhile_cons_of_pos (by norm_num),
    List.takeWhile_cons_of_pos (by norm_num),
    List.takeWhile_cons_of_neg (by norm_num)]
  rfl

theorem genGhosts_eval :
    (genGhosts [] [0, 1] zeroStream).1 = [ghostNote (1/4) 35] := by
  simp only [genGhosts, nearSnare, random01, randint, zeroStream]
  norm_num [ghostNote]

theorem add_funk_eval :
    (add_funk_ghost_notes [kick14] zeroStream).1 = [kick14, ghostNote (1/4) 35] := by
  have hsn : ([kick14].filter (fun n => n.drum == some ("snare"))).map
      (fun n => n.time) = [] := by
    simp [kick14]
  have hmt : maxTimeOf [kick14] = 1/4 := by
    simp [maxTimeOf, kick14]
  show [kick14] ++ (genGhosts _ (slotList (maxTimeOf [kick14])) zeroStream).1 = _
  rw [hsn, hmt, slotList_quarter, genGhosts_eval]
  rfl

/-- The velocity-bounds invariant of the spec, at the default
configuration `[velocity_min, velocity_max] = [40, 120]`. -/
def velOK (n : Note) : Prop :=
  settings.velocity_min ≤ n.velocity ∧ n.velocity ≤ settings.velocity_max

theorem swingNote_velocity (r : ℚ) (n : Note) : (swingNote r n).velocity = n.velocity := by
  unfold swingNote
  split_ifs <;> rfl

theorem vel_up_bounds (v : ℤ) (c : ℚ) (hc : 1 ≤ c)
    (h40 : settings.velocity_min ≤ v) (hv : v ≤ settings.velocity_max) :
    settings.velocity_min ≤ min settings.velocity_max (pyInt ((v : ℚ) * c)) ∧
    min settings.velocity_max (pyInt ((v : ℚ) * c)) ≤ settings.velocity_max := by
  rw [settings.velocity_min] at h40 ⊢
  rw [settings.velocity_max] at hv ⊢
  have hvq : (40 : ℚ) ≤ (v : ℚ) := by exact_mod_cast h40
  have harg : (0:ℚ) ≤ (v:ℚ) * c := by nlinarith
  refine ⟨le_min (by norm_num) ?_, min_le_left _ _⟩
  rw [pyInt_eq_floor harg, Int.le_floor]
  push_cast
  nlinarith

theorem vel_down_bounds (v : ℤ) (c : ℚ) (hc0 : 0 ≤ c) (hc : c ≤ 1)
    (h40 : settings.velocity_min ≤ v) (hv : v ≤ settings.velocity_max) :
    settings.velocity_min ≤ max settings.velocity_min (pyInt ((v : ℚ) * c)) ∧
    max settings.velocity_min (pyInt ((v : ℚ) * c)) ≤ settings.velocity_max := by
  rw [settings.velocity_min] at h40 ⊢
  rw [settings.velocity_max] at hv ⊢
  have hvq : (0 : ℚ) ≤ (v : ℚ) := by
    have : (40 : ℚ) ≤ (v : ℚ) := by exact_mod_cast h40
    linarith
  refine ⟨le_max_left _ _, max_le (by norm_num) ?_⟩
  have harg : (0:ℚ) ≤ (v:ℚ) * c := by nlinarith
  rw [pyInt_eq_floor harg]
  have hle : ⌊(v:ℚ)*c⌋ ≤ ⌊(v:ℚ)⌋ := Int.floor_le_floor (by nlinarith)
  rw [Int.floor_intCast] at hle
  omega

theorem humanize_velOK (t : ℚ) (v : ℤ) :
    ∀ (ns : List Note) (st : RandState), ∀ n2 ∈ (humanize ns t v st).1, velOK n2 := by
  intro ns
  induction ns with
  | nil => intro st n2 hmem; simp [humanize] at hmem
  | cons n rest ih =>
    intro st n2 hmem
    simp only [humanize] at hmem
    rcases List.mem_cons.mp hmem with rfl | h'
    · refine ⟨le_max_left _ _, max_le ?_ (min_le_left _ _)⟩
      norm_num [settings.velocity_min, settings.velocity_max]
    · exact ih _ n2 h'

/-- C3 amended: with input velocities inside `[velocity_min, velocity_max]`
(default `[40, 120]`), every note produced by the Swing, Rock-emphasis and
Reggae transforms and by the Humanizer stays inside that range, but the
Funk ghost-note stage appends ghost snare notes whose velocity lies in
`[35, 55]` — which can fall below `velocity_min` — while leaving the input
notes themselves unchanged. -/
theorem c3_velocity_amended (notes : List Note) (r t : ℚ) (v : ℤ) (st st2 : RandState)
    (h : ∀ n ∈ notes, velOK n) :
    (∀ n2 ∈ apply_swing notes r, velOK n2) ∧
    (∀ n2 ∈ apply_rock_emphasis notes, velOK n2) ∧
    (∀ n2 ∈ apply_reggae_offbeat notes, velOK n2) ∧
    ((add_funk_ghost_notes notes st).1.take notes.length = notes ∧
      ∀ n2 ∈ (add_funk_ghost_notes notes st).1.drop notes.length,
        35 ≤ n2.velocity ∧ n2.velocity ≤ 55) ∧
    (∀ n2 ∈ (humanize notes t v st2).1, velOK n2) := by
  have hout : (add_funk_ghost_notes notes st).1
      = notes ++ (genGhosts
          ((notes.filter (fun n => n.drum == some ("snare"))).map (fun n => n.time))
          (slotList (maxTimeOf notes)) st).1 := rfl
  refine ⟨?_, ?_, ?_, ⟨?_, ?_⟩, humanize_velOK t v notes st2⟩
  · intro n2 hn2
    unfold apply_swing at hn2
    split_ifs at hn2
    · exact h n2 hn2
    · obtain ⟨n, hn, rfl⟩ := List.mem_map.mp hn2
      have hv' := h n hn
      exact ⟨swingNote_velocity r n ▸ hv'.1, swingNote_velocity r n ▸ hv'.2⟩
  · intro n2 hn2
    obtain ⟨n, hn, rfl⟩ := List.mem_map.mp hn2
    have hv' := h n hn
    unfold rockNote
    split_ifs
    · exact vel_up_bounds n.velocity (115/100) (by norm_num) hv'.1 hv'.2
    · exact vel_down_bounds n.velocity (95/100) (by norm_num) (by norm_num) hv'.1 hv'.2
    · exact hv'
  · intro n2 hn2
    obtain ⟨n, hn, rfl⟩ := List.mem_map.mp hn2
    have hv' := h n hn
    unfold reggaeNote
    split_ifs
    · exact vel_up_bounds n.velocity (120/100) (by norm_num) hv'.1 hv'.2
    · exact vel_down_bounds n.velocity (85/100) (by norm_num) (by norm_num) hv'.1 hv'.2
    · exact hv'
  · rw [hout]
    exact List.take_left notes _
  · intro n2 hn2
    rw [hout, List.drop_left] at hn2
    obtain ⟨s, _, _, _, v', hv1, hv2, rfl⟩ := genGhosts_mem _ _ _ n2 hn2
    exact ⟨hv1, hv2⟩

/-- C3 counterexample: on the input `[kick at 1/4, velocity 100]` (all
velocities inside `[40, 120]`), the Funk ghost-note stage can emit a ghost
snare with velocity 35, which is strictly below `velocity_min = 40`. -/
theorem c3_velocity_counterexample :
    (∀ n ∈ [kick14], velOK n) ∧
    ghostNote (1/4) 35 ∈ (add_funk_ghost_notes [kick14] zeroStream).1 ∧
    (ghostNote (1/4) 35).velocity < settings.velocity_min := by
  refine ⟨?_, ?_, ?_⟩
  · intro n hn
    simp only [List.mem_singleton] at hn
    subst hn
    exact ⟨by norm_num [kick14, settings.velocity_min],
      by norm_num [kick14, settings.velocity_max]⟩
  · rw [add_funk_eval]
    simp
  · norm_num [ghostNote, settings.velocity_min]

/-- C3 witness: the amended claim instantiated on the concrete input
`[kick at 1/4, velocity 100]`. -/
theorem c3_velocity_amended_witness :
    (∀ n ∈ [kick14], velOK n) ∧
    (∀ n2 ∈ apply_rock_emphasis [kick14], velOK n2) ∧
    (∀ n2 ∈ (add_funk_ghost_notes [kick14] zeroStream).1.drop 1,
      35 ≤ n2.velocity ∧ n2.velocity ≤ 55) := by
  have hh : ∀ n ∈ [kick14], velOK n := by
    intro n hn
    simp only [List.mem_singleton] at hn
    subst hn
    exact ⟨by norm_num [kick14, settings.velocity_min],
      by norm_num [kick14, settings.velocity_max]⟩
  have h := c3_velocity_amended [kick14] (33/50) (3/200) 8 zeroStream zeroStream hh
  exact ⟨hh, h.2.1, by simpa using h.2.2.2.1.2⟩

/-- C10 witness: on input `[kick at 1/4]` with the all-zeros draw stream,
the stage appends exactly the ghost snare at time 1/4 with velocity 35,
which satisfies every property of the frame theorem. -/
theorem c10_funk_frame_witness :
    (add_funk_ghost_notes [kick14] zeroStream).1.take 1 = [kick14] ∧
    (ghostNote (1/4) 35).drum = some ("snare") ∧
    (ghostNote (1/4) 35).midi_note = some 38 ∧
    35 ≤ (ghostNote (1/4) 35).velocity ∧ (ghostNote (1/4) 35).velocity ≤ 55 ∧
    (∃ s : ℕ, (s % 4 = 1 ∨ s % 4 = 3) ∧ (ghostNote (1/4) 35).time = (s : ℚ) * (1/4)) ∧
    (∀ n ∈ [kick14], n.drum = some ("snare") →
      ¬(|(ghostNote (1/4) 35).time - n.time| < 1/100)) ∧
    (ghostNote (1/4) 35).time ≤ maxTimeOf [kick14] := by
  have h := c10_funk_frame [kick14] zeroStream
  have hmem : ghostNote (1/4) 35
      ∈ ((add_funk_ghost_notes [kick14] zeroStream).1).drop ([kick14] : List Note).length := by
    rw [add_funk_eval]
    simp
  have h2 := h.2 _ hmem
  exact ⟨by simpa using h.1, h2.1, h2.2.1, h2.2.2.1, h2.2.2.2.1, h2.2.2.2.2.1,
    h2.2.2.2.2.2.1, h2.2.2.2.2.2.2⟩

/-- C8 witness: idempotence instantiated at the default grid `1/4` on a
concrete piano note. -/
theorem c8_quantize_idempotent_witness :
    (0 : ℚ) < 1/4 ∧
    quantize_notes (quantize_notes [pianoNote60] (1/4)) (1/4)
      = quantize_notes [pianoNote60] (1/4) :=
  ⟨by norm_num, c8_quantize_idempotent [pianoNote60] (1/4) (by norm_num)⟩


/-! ## MIDI writer lemmas and claims C1, C4 -/

theorem pyInt_nonneg {q : ℚ} (h : 0 ≤ q) : 0 ≤ pyInt q := by
  rw [pyInt_eq_floor h]
  exact Int.floor_nonneg.mpr h

/-- Composing `_beats_to_seconds` with the writer's seconds-to-ticks
conversion: the tick emitted for beat time `b` is `int(b * 480)`, the
floor for non-negative `b`. -/
theorem drum_tick_on (b : ℚ) (tempo : ℤ) (ht : 0 < tempo) (hb : 0 ≤ b) :
    pyInt (beats_to_seconds b tempo / 60 * (tempo : ℚ) * 480) = ⌊b * 480⌋ := by
  have htQ : ((tempo : ℚ)) ≠ 0 := by
    exact_mod_cast ne_of_gt ht
  have harg : beats_to_seconds b tempo / 60 * (tempo:ℚ) * 480 = b * 480 := by
    unfold beats_to_seconds
    field_simp
    ring
  rw [harg, pyInt_eq_floor (mul_nonneg hb (by norm_num))]

theorem events_filter_on (l : List SeqNote) (tempo : ℤ) :
    ((l.flatMap (fun n =>
        [⟨pyInt (n.start_time / 60 * (tempo : ℚ) * 480), true, n.pitch, n.velocity,
           if n.is_drum then 9 else 0⟩,
         ⟨pyInt (n.end_time / 60 * (tempo : ℚ) * 480), false, n.pitch, 0,
           if n.is_drum then 9 else 0⟩])).filter (fun e => e.isOn)).map
      (fun e : MidiEvent => e.tick)
      = l.map (fun n => pyInt (n.start_time / 60 * (tempo : ℚ) * 480)) := by
  induction l with
  | nil => rfl
  | cons n l ih =>
    simp only [List.flatMap_cons, List.filter_append, List.map_append, ih,
      List.filter_cons]
    simp

theorem noteEvents_tick_nonneg (s : FallbackSequence) (ht : 0 < s.tempo)
    (hn : ∀ n ∈ s.notes, 0 ≤ n.start_time ∧ 0 ≤ n.end_time) :
    ∀ e ∈ noteEvents s, 0 ≤ e.tick := by
  intro e he
  unfold noteEvents at he
  simp only [List.mem_flatMap, List.mem_cons, List.mem_singleton] at he
  obtain ⟨n, hn', he'⟩ := he
  have hs := hn n hn'
  have htQ : (0:ℚ) < (s.tempo : ℚ) := by exact_mod_cast ht
  rcases he' with rfl | rfl | h
  · exact pyInt_nonneg
      (mul_nonneg (mul_nonneg (div_nonneg hs.1 (by norm_num)) htQ.le) (by norm_num))
  · exact pyInt_nonneg
      (mul_nonneg (mul_nonneg (div_nonneg hs.2 (by norm_num)) htQ.le) (by norm_num))
  · exact absurd h (List.not_mem_nil e)

instance : IsTotal MidiEvent (fun a b => a.tick ≤ b.tick) :=
  ⟨fun a b => le_total a.tick b.tick⟩

instance : IsTrans MidiEvent (fun a b => a.tick ≤ b.tick) :=
  ⟨fun _ _ _ => le_trans⟩

theorem accum_msgsFrom (l : List MidiEvent) (prev : ℤ) (h0 : 0 ≤ prev)
    (hch : List.Chain (fun a b : ℤ => a ≤ b) prev (l.map (fun e => e.tick))) :
    accumTicks prev (msgsFrom prev l) = l.map (fun e => e.tick) := by
  induction l generalizing prev with
  | nil => rfl
  | cons e es ih =>
    simp only [List.map_cons] at hch
    cases hch with
    | cons hpe hch' =>
      simp only [msgsFrom, accumTicks]
      have hmax : max 0 (e.tick - prev) = e.tick - prev := max_eq_right (by omega)
      rw [hmax]
      have h2 : prev + (e.tick - prev) = e.tick := by ring
      rw [h2, List.map_cons]
      exact congrArg _ (ih e.tick (le_trans h0 hpe) hch')

theorem sortedEvents_chain (s : FallbackSequence)
    (hnn : ∀ e ∈ noteEvents s, 0 ≤ e.tick) :
    List.Chain (fun a b : ℤ => a ≤ b) 0 ((sortedEvents s).map (fun e => e.tick)) := by
  have hsort : List.Sorted (fun a b : MidiEvent => a.tick ≤ b.tick) (sortedEvents s) :=
    List.sorted_insertionSort _ _
  have hpw : List.Pairwise (fun a b : ℤ => a ≤ b)
      ((sortedEvents s).map (fun e => e.tick)) := List.pairwise_map.mpr hsort
  rw [List.chain_iff_pairwise]
  refine List.pairwise_cons.mpr ⟨?_, hpw⟩
  intro t ht'
  obtain ⟨e, he, rfl⟩ := List.mem_map.mp ht'
  exact hnn e ((List.perm_insertionSort _ _).mem_iff.mp he)

/-- The writer's Note-On ticks, in input order, for any sequence. -/
theorem writer_on_ticks (s : FallbackSequence) :
    ((noteEvents s).filter (fun e => e.isOn)).map (fun e => e.tick)
      = s.notes.map (fun n => pyInt (n.start_time / 60 * (s.tempo : ℚ) * 480)) :=
  events_filter_on s.notes s.tempo

/-- Delta-time accumulation reconstructs the absolute ticks for any
sequence whose note times are non-negative. -/
theorem writer_accum (s : FallbackSequence) (ht : 0 < s.tempo)
    (hnn : ∀ n ∈ s.notes, 0 ≤ n.start_time ∧ 0 ≤ n.end_time) :
    accumTicks 0 (write_midi_with_mido s) = (sortedEvents s).map (fun e => e.tick) :=
  accum_msgsFrom _ _ le_rfl (sortedEvents_chain s (noteEvents_tick_nonneg s ht hnn))

/-- C1 amended: for every note — drum or piano — at beat time `b ≥ 0`
encoded at `ticks_per_quarter = 480` with a positive tempo, the emitted
absolute Note-On tick is `int(b*480) = ⌊b*480⌋` (truncation, not
`round`), and accumulating the emitted clamped delta-times reconstructs
exactly the absolute tick of every event in emission order. -/
theorem c1_tick_amended (notes : List Note) (instrument : String) (tempo : ℤ)
    (ht : 0 < tempo) (hn : ∀ n ∈ notes, 0 ≤ n.time)
    (hd : ∀ n ∈ notes, 0 ≤ n.duration.getD 0) :
    (((noteEvents (primer_only_to_sequence notes instrument tempo)).filter
        (fun e => e.isOn)).map (fun e => e.tick)
      = notes.map (fun n => ⌊n.time * 480⌋)) ∧
    accumTicks 0 (write_midi_with_mido (primer_only_to_sequence notes instrument tempo))
      = (sortedEvents (primer_only_to_sequence notes instrument tempo)).map
          (fun e => e.tick) := by
  have htQ : (0:ℚ) < (tempo : ℚ) := by exact_mod_cast ht
  unfold primer_only_to_sequence
  split_ifs
  · constructor
    · rw [writer_on_ticks, drum_notes_to_sequence_notes, drum_notes_to_sequence_tempo,
        List.map_map]
      apply List.map_congr_left
      intro n hn'
      simp only [Function.comp_apply, drumSeqNote]
      exact drum_tick_on n.time tempo ht (hn n hn')
    · apply writer_accum
      · rw [drum_notes_to_sequence_tempo]
        exact ht
      · intro m hm
        rw [drum_notes_to_sequence_notes] at hm
        obtain ⟨n, hn', rfl⟩ := List.mem_map.mp hm
        have hb := hn n hn'
        unfold drumSeqNote beats_to_seconds
        constructor
        · exact div_nonneg (mul_nonneg hb (by norm_num)) htQ.le
        · have hnn : (0:ℚ) ≤ n.time * 60 / (tempo : ℚ) :=
            div_nonneg (mul_nonneg hb (by norm_num)) htQ.le
          linarith
  · constructor
    · rw [writer_on_ticks, piano_notes_to_sequence_notes, piano_notes_to_sequence_tempo,
        List.map_map]
      apply List.map_congr_left
      intro n hn'
      simp only [Function.comp_apply, pianoSeqNote]
      exact drum_tick_on n.time tempo ht (hn n hn')
    · apply writer_accum
      · rw [piano_notes_to_sequence_tempo]
        exact ht
      · intro m hm
        rw [piano_notes_to_sequence_notes] at hm
        obtain ⟨n, hn', rfl⟩ := List.mem_map.mp hm
        have hb := hn n hn'
        have hdur := hd n hn'
        unfold pianoSeqNote beats_to_seconds
        have h1 : (0:ℚ) ≤ n.time * 60 / (tempo : ℚ) :=
          div_nonneg (mul_nonneg hb (by norm_num)) htQ.le
        have h2 : (0:ℚ) ≤ (n.duration.getD 0) * 60 / (tempo : ℚ) :=
          div_nonneg (mul_nonneg hdur (by norm_num)) htQ.le
        exact ⟨h1, by linarith⟩

def tinyNote : Note :=
  { time := 1/640, velocity := 100, duration := none, drum := some ("kick"),
    midi_note := some 36, pitch := none }

/-- C1 counterexample: for the beat time `b = 1/640` at tempo 120,
`round(b*480) = round(3/4) = 1`, but the writer emits
`int(b*480) = 0` — the emitted tick is the truncation, not the rounding,
of `b * 480`. -/
theorem c1_tick_counterexample :
    pyRound ((1/640 : ℚ) * 480) = 1 ∧
    ((noteEvents (drum_notes_to_sequence [tinyNote] 120)).filter (fun e => e.isOn)).map
        (fun e => e.tick) = [0] ∧
    (0 : ℤ) ≠ 1 := by
  refine ⟨?_, ?_, by norm_num⟩
  · have hf : ratFloor ((1/640 : ℚ) * 480) = 0 := by
      rw [ratFloor_eq]
      norm_num [Int.floor_eq_zero_iff, Set.mem_Ico]
    rw [pyRound, hf]
    norm_num
  · have h1 : ((noteEvents (drum_notes_to_sequence [tinyNote] 120)).filter
        (fun e => e.isOn)).map (fun e => e.tick)
        = [tinyNote].map (fun n => ⌊n.time * 480⌋) := by
      calc ((noteEvents (drum_notes_to_sequence [tinyNote] 120)).filter
              (fun e => e.isOn)).map (fun e => e.tick)
          = (drum_notes_to_sequence [tinyNote] 120).notes.map
              (fun n => pyInt (n.start_time / 60
                * ((drum_notes_to_sequence [tinyNote] 120).tempo : ℚ) * 480)) :=
            events_filter_on _ _
        _ = ([tinyNote].map (drumSeqNote 120)).map
              (fun n => pyInt (n.start_time / 60 * ((120 : ℤ) : ℚ) * 480)) := by
            rw [drum_notes_to_sequence_notes, drum_notes_to_sequence_tempo]
        _ = [tinyNote].map (fun n => ⌊n.time * 480⌋) := by
            rw [List.map_map]
            apply List.map_congr_left
            intro n hn'
            simp only [Function.comp_apply, drumSeqNote]
            simp only [List.mem_singleton] at hn'
            subst hn'
            exact drum_tick_on _ 120 (by norm_num) (by norm_num [tinyNote])
    rw [h1]
    simp only [List.map_cons, List.map_nil, tinyNote]
    norm_num [Int.floor_eq_zero_iff, Set.mem_Ico]

/-- C1 witness: the amended theorem instantiated on a kick note at beat 0
with tempo 120. -/
theorem c1_tick_amended_witness :
    (0 : ℤ) < 120 ∧ (∀ n ∈ [kickNote], 0 ≤ n.time) ∧
    (∀ n ∈ [kickNote], 0 ≤ n.duration.getD 0) ∧
    (((noteEvents (primer_only_to_sequence [kickNote] ("drums") 120)).filter
        (fun e => e.isOn)).map (fun e => e.tick)
      = [kickNote].map (fun n => ⌊n.time * 480⌋)) ∧
    accumTicks 0 (write_midi_with_mido (primer_only_to_sequence [kickNote] ("drums") 120))
      = (sortedEvents (primer_only_to_sequence [kickNote] ("drums") 120)).map
          (fun e => e.tick) ∧
    (((noteEvents (primer_only_to_sequence [pianoNote60] ("piano") 120)).filter
        (fun e => e.isOn)).map (fun e => e.tick)
      = [pianoNote60].map (fun n => ⌊n.time * 480⌋)) := by
  have h1 : (0:ℤ) < 120 := by norm_num
  have h2 : ∀ n ∈ [kickNote], 0 ≤ n.time := by
    intro n hn
    simp only [List.mem_singleton] at hn
    subst hn
    norm_num [kickNote]
  have h3 : ∀ n ∈ [kickNote], 0 ≤ n.duration.getD 0 := by
    intro n hn
    simp only [List.mem_singleton] at hn
    subst hn
    norm_num [kickNote]
  have h4 : ∀ n ∈ [pianoNote60], 0 ≤ n.time := by
    intro n hn
    simp only [List.mem_singleton] at hn
    subst hn
    norm_num [pianoNote60]
  have h5 : ∀ n ∈ [pianoNote60], 0 ≤ n.duration.getD 0 := by
    intro n hn
    simp only [List.mem_singleton] at hn
    subst hn
    norm_num [pianoNote60]
  exact ⟨h1, h2, h3, (c1_tick_amended [kickNote] ("drums") 120 h1 h2 h3).1,
    (c1_tick_amended [kickNote] ("drums") 120 h1 h2 h3).2,
    (c1_tick_amended [pianoNote60] ("piano") 120 h1 h4 h5).1⟩

theorem c4_eval :
    write_midi_with_mido (drum_notes_to_sequence [kickNote] 120)
      = [⟨0, true, 36, 100, 9⟩, ⟨48, false, 36, 0, 9⟩] := by
  have hs : (drum_notes_to_sequence [kickNote] 120).notes
      = [⟨36, 0, 1/20, 100, true, 9⟩] := by
    rw [drum_notes_to_sequence_notes]
    simp [drumSeqNote, kickNote, beats_to_seconds]
  have htp : (drum_notes_to_sequence [kickNote] 120).tempo = 120 :=
    drum_notes_to_sequence_tempo _ _
  have e0 : pyInt ((0 : ℚ) / 60 * ((120:ℤ) : ℚ) * 480) = 0 := by
    rw [show ((0:ℚ)/60*((120:ℤ):ℚ)*480) = 0 by norm_num, pyInt_eq_floor le_rfl]
    norm_num
  have e48 : pyInt ((1/20 : ℚ) / 60 * ((120:ℤ) : ℚ) * 480) = 48 := by
    rw [show ((1/20:ℚ)/60*((120:ℤ):ℚ)*480) = 48 by norm_num, pyInt_eq_floor (by norm_num)]
    norm_num
  have hev : noteEvents (drum_notes_to_sequence [kickNote] 120)
      = [⟨0, true, 36, 100, 9⟩, ⟨48, false, 36, 0, 9⟩] := by
    unfold noteEvents
    rw [hs, htp]
    simp only [List.flatMap_cons, List.flatMap_nil, List.append_nil]
    simp only [e0, e48]
    rfl
  unfold write_midi_with_mido sortedEvents
  rw [hev]
  simp only [List.insertionSort, List.orderedInsert]
  norm_num [msgsFrom]

/-- C4 counterexample: for the single kick at beat 0, velocity 100, tempo
120, the emitted track is Note-On (channel 9, pitch 36, delta 0) followed
by Note-Off with delta 48 — not "~24 ticks later" as the claim states. -/
theorem c4_scenario_counterexample :
    write_midi_with_mido (drum_notes_to_sequence [kickNote] 120)
      = [⟨0, true, 36, 100, 9⟩, ⟨48, false, 36, 0, 9⟩] ∧
    (48 : ℤ) ≠ 24 :=
  ⟨c4_eval, by norm_num⟩

/-- C4 amended: the encoded track for the single kick contains one Note-On
on channel 9, pitch 36, at tick 0, and the corresponding Note-Off exactly
48 ticks later (the fixed 0.05 s drum duration at 120 bpm is 0.1 beat =
48 ticks at 480 ticks per quarter). -/
theorem c4_scenario_amended :
    write_midi_with_mido (drum_notes_to_sequence [kickNote] 120)
      = [⟨0, true, 36, 100, 9⟩, ⟨48, false, 36, 0, 9⟩] ∧
    accumTicks 0 (write_midi_with_mido (drum_notes_to_sequence [kickNote] 120))
      = [0, 48] ∧
    (1/20 : ℚ) / 60 * 120 * 480 = 48 := by
  refine ⟨c4_eval, ?_, by norm_num⟩
  rw [c4_eval]
  simp [accumTicks]

end NextBeat
